import Mathlib

/-!
Shallow embedding of `pikaraoke/lib/database.py` (class `PlayDatabase`).

The SQLite database state is modelled as a `DB` structure:
* table `users (canonical_name TEXT PRIMARY KEY)` as a duplicate-free list
  of strings in insertion order (`INSERT OR IGNORE` keeps it duplicate-free);
* table `user_aliases (alias TEXT PRIMARY KEY, canonical_name TEXT)` as an
  association list from alias to canonical name, looked up front to back;
* table `plays` as a list of `Play` rows in rowid order, with `nextId`
  modelling the auto-increment counter.

Python methods that both read and write are modelled as functions returning
the new `DB` together with the query result.  SQLite's `date(timestamp)` and
`strftime` bucket functions are modelled on well-formed
`YYYY-MM-DD HH:MM:SS` timestamp strings as string prefixes (`String.take`),
which is exactly what they compute on such inputs.
-/

/-- One row of the `plays` table:
`(id, timestamp, canonical_name, song, duration, completed)`. -/
structure Play where
  id : Nat
  timestamp : String
  name : String
  song : String
  duration : Option Int
  completed : Bool
deriving DecidableEq

/-- The whole database state. -/
structure DB where
  users : List String
  aliases : List (String × String)
  plays : List Play
  nextId : Nat
deriving DecidableEq

/-- `SELECT canonical_name FROM user_aliases WHERE alias = ?` —
first matching row, scanning in storage order. -/
def aliasLookup : List (String × String) → String → Option String
  | [], _ => none
  | (k, v) :: rest, a => if k = a then some v else aliasLookup rest a

/-- `INSERT OR IGNORE INTO users (canonical_name) VALUES (?)`. -/
def insertUserIfMissing (db : DB) (u : String) : DB :=
  if u ∈ db.users then db else { db with users := db.users ++ [u] }

/-- `_resolve_canonical_user`: alias lookup first; otherwise insert-if-missing
into `users` and return the name itself.  Returns the (possibly) updated
state together with the resolved canonical name. -/
def resolveCanonicalUser (db : DB) (user : String) : DB × String :=
  match aliasLookup db.aliases user with
  | some c => (db, c)
  | none => (insertUserIfMissing db user, user)

/-- `set_user_alias`: ensure the canonical user exists
(`INSERT OR IGNORE`), then `INSERT OR REPLACE` the alias row. -/
def set_user_alias (db : DB) (a c : String) : DB :=
  let db1 := insertUserIfMissing db c
  { db1 with aliases := (db1.aliases.filter (fun p => p.1 ≠ a)) ++ [(a, c)] }

/-- `remove_user_alias`: `DELETE FROM user_aliases WHERE alias = ?`. -/
def remove_user_alias (db : DB) (a : String) : DB :=
  { db with aliases := db.aliases.filter (fun p => p.1 ≠ a) }

/-- `get_user_aliases`: all `(alias, canonical_name)` rows. -/
def get_user_aliases (db : DB) : List (String × String) :=
  db.aliases

/-- Lexicographic (codepoint) order on character lists, the order SQLite's
default BINARY collation gives `ORDER BY` on the ASCII strings stored here. -/
def charListLt : List Char → List Char → Bool
  | [], [] => false
  | [], _ :: _ => true
  | _ :: _, [] => false
  | c :: cs, d :: ds => if c < d then true else if d < c then false else charListLt cs ds

/-- String comparison used for `ORDER BY ... canonical_name` and
`ORDER BY timestamp`. -/
def strLt (s t : String) : Bool := charListLt s.data t.data

/-- Python's `str.strip()`: drop leading and trailing whitespace. -/
def pyStrip (s : String) : String :=
  ⟨((s.data.dropWhile Char.isWhitespace).reverse.dropWhile Char.isWhitespace).reverse⟩

/-- The first `k` characters of a string (`strftime`/`date` bucket of a
well-formed timestamp). -/
def prefixTake (k : Nat) (s : String) : String := ⟨s.data.take k⟩

/-- Python truthiness of an optional string parameter (`if user_filter:`):
`None` and the empty string are falsy. -/
def truthy : Option String → Option String
  | none => none
  | some s => if s = "" then none else some s

/-- SQLite `date(timestamp)` on a well-formed `YYYY-MM-DD HH:MM:SS` string:
its first 10 characters. -/
def dateOf (ts : String) : String := prefixTake 10 ts

/-- The `date(p.timestamp) = ?` condition of `_build_filter_clause`
(absent when the date filter is falsy). -/
def playDateCond (dateFilter : Option String) (p : Play) : Bool :=
  match truthy dateFilter with
  | some d => dateOf p.timestamp = d
  | none => true

/-- `_build_filter_clause`: resolves a truthy user filter (side effect on
`users` included) and returns the updated state with the row predicate of
the generated `WHERE` clause. -/
def build_filter_clause (db : DB) (userFilter dateFilter : Option String) :
    DB × (Play → Bool) :=
  match truthy userFilter with
  | some u =>
    let r := resolveCanonicalUser db u
    (r.1, fun p => p.name = r.2 && playDateCond dateFilter p)
  | none => (db, fun p => playDateCond dateFilter p)

/-- Insert into a list sorted by `le` (stable: an element is placed before
the first element it `le`-precedes). -/
def insertLe {α : Type} (le : α → α → Bool) (x : α) : List α → List α
  | [] => [x]
  | y :: ys => if le x y then x :: y :: ys else y :: insertLe le x ys

/-- Stable insertion sort, modelling a deterministic choice for SQL
`ORDER BY` (tie order is unspecified by SQLite; no claim depends on it). -/
def insSortBy {α : Type} (le : α → α → Bool) : List α → List α
  | [] => []
  | x :: xs => insertLe le x (insSortBy le xs)

/-- `ORDER BY timestamp DESC` comparator on play rows. -/
def tsDesc (p q : Play) : Bool := !(strLt p.timestamp q.timestamp)

/-- First-occurrence deduplication, modelling the set of distinct values
produced by SQL `GROUP BY` / `COUNT(DISTINCT ...)` (group order in SQLite
is unspecified; no claim depends on it). -/
def dedupFirst : List String → List String
  | [] => []
  | x :: xs => x :: (dedupFirst xs).filter (fun y => y ≠ x)

/-- `WHERE completed = 1`. -/
def completedPlays (db : DB) : List Play := db.plays.filter (fun p => p.completed)

/-- Comparator for the `ORDER BY` clause of `get_top_users`, after the
sort parameters have been validated: key `u.canonical_name` for `"user"`,
`count` otherwise; direction `ASC` or `DESC`. -/
def rowLe (sb so : String) (a b : String × Nat) : Bool :=
  if sb = "user" then
    if so = "ASC" then !(strLt b.1 a.1) else !(strLt a.1 b.1)
  else
    if so = "ASC" then decide (a.2 ≤ b.2) else decide (b.2 ≤ a.2)

/-- `get_top_users`: validates `sort_by`/`sort_order` (each falling back to
`"count"` / `"DESC"` separately), counts completed plays joined with
`users` grouped by canonical name, orders, and paginates.  The join
multiplies each play row by the number of matching `users` rows (one, for
any state reachable through the API, since `canonical_name` is the primary
key). -/
def get_top_users (db : DB) (limit offset : Nat) (sort_by sort_order : String) :
    List (String × Nat) :=
  let sb := if sort_by = "user" ∨ sort_by = "count" then sort_by else "count"
  let so := if sort_order = "ASC" ∨ sort_order = "DESC" then sort_order else "DESC"
  let keys := (dedupFirst ((completedPlays db).map Play.name)).filter (fun u => u ∈ db.users)
  let rows := keys.map (fun u =>
    (u, ((completedPlays db).filter (fun p => p.name = u)).length * db.users.count u))
  ((insSortBy (rowLe sb so) rows).drop offset).take limit

/-- `get_top_users_count`: `SELECT COUNT(DISTINCT canonical_name) FROM plays
WHERE completed = 1` (no join with `users`). -/
def get_top_users_count (db : DB) : Nat :=
  (dedupFirst ((completedPlays db).map Play.name)).length

/-- `get_last_plays`: filter, `ORDER BY timestamp DESC`, project
`(timestamp, canonical_name, song, completed)`, then `LIMIT ? OFFSET ?`. -/
def get_last_plays (db : DB) (limit offset : Nat) (dateFilter userFilter : Option String) :
    DB × List (String × String × String × Bool) :=
  let bf := build_filter_clause db userFilter dateFilter
  let rows := insSortBy tsDesc (bf.1.plays.filter bf.2)
  (bf.1, ((rows.map (fun p => (p.timestamp, p.name, p.song, p.completed))).drop offset).take limit)

/-- `get_plays_count`: `SELECT COUNT(*) FROM plays p` plus the same filter
clause as `get_last_plays`. -/
def get_plays_count (db : DB) (dateFilter userFilter : Option String) : DB × Nat :=
  let bf := build_filter_clause db userFilter dateFilter
  (bf.1, (bf.1.plays.filter bf.2).length)

/-- `get_plays_by_user`: resolves a truthy `user` up front, then reuses the
filter clause (which resolves the canonical name a second time), ordering
by timestamp descending with no pagination and projecting
`(id, timestamp, canonical_name, song, completed)`. -/
def get_plays_by_user (db : DB) (user : Option String) (dateFilter : Option String) :
    DB × List (Nat × String × String × String × Bool) :=
  let r1 : DB × Option String :=
    match truthy user with
    | some u =>
      let r := resolveCanonicalUser db u
      (r.1, some r.2)
    | none => (db, none)
  let bf := build_filter_clause r1.1 r1.2 dateFilter
  let rows := insSortBy tsDesc (bf.1.plays.filter bf.2)
  (bf.1, rows.map (fun p => (p.id, p.timestamp, p.name, p.song, p.completed)))

/-- `update_play`: when `user` is truthy, resolve it and overwrite
`canonical_name` of the row with the given id; when `song` is truthy,
overwrite `song` of that row; omitted (or falsy) arguments touch nothing,
and a missing id matches no row. -/
def update_play (db : DB) (playId : Nat) (user song : Option String) : DB :=
  let db1 :=
    match truthy user with
    | some u =>
      let r := resolveCanonicalUser db u
      { r.1 with
          plays := r.1.plays.map (fun p => if p.id = playId then { p with name := r.2 } else p) }
    | none => db
  match truthy song with
  | some s =>
      { db1 with
          plays := db1.plays.map (fun p => if p.id = playId then { p with song := s } else p) }
  | none => db1

/-- Bucket length for `get_top_songs_by_period`: `strftime` pattern
`%Y-%m-%d` / `%Y-%m` / `%Y` keeps the first 10 / 7 / 4 characters of a
well-formed timestamp. -/
def periodKeyLen (period : String) : Option Nat :=
  if period = "day" then some 10
  else if period = "month" then some 7
  else if period = "year" then some 4
  else none

/-- `get_top_songs_by_period`: `raise ValueError("Invalid period")` for a
period outside `{day, month, year}` (modelled as `Except.error`); otherwise
counts completed plays whose timestamp bucket equals the bucket of `now`
(the query-time clock, passed explicitly), grouped by song, ordered by
count descending, truncated to `limit`. -/
def get_top_songs_by_period (db : DB) (now : String) (period : String) (limit : Nat) :
    Except String (List (String × Nat)) :=
  match periodKeyLen period with
  | none => Except.error "Invalid period"
  | some k =>
    let rel := db.plays.filter (fun p => p.completed && prefixTake k p.timestamp = prefixTake k now)
    let keys := dedupFirst (rel.map Play.song)
    let rows := keys.map (fun s => (s, (rel.filter (fun p => p.song = s)).length))
    Except.ok ((insSortBy (fun a b => decide (b.2 ≤ a.2)) rows).take limit)

/-- One line of the import log file: either a line that fails JSON parsing,
or a parsed JSON object with the optional keys the importer reads
(`user`, `timestamp`, `song`, `duration`). -/
structure Entry where
  user : Option String
  timestamp : Option String
  song : Option String
  duration : Option Int
deriving DecidableEq

/-- A raw log line as `populate_from_log` classifies it. -/
inductive LogLine where
  | malformed : LogLine
  | record : Entry → LogLine
deriving DecidableEq

/-- `entry.get("user", "").strip()`. -/
def entryUser (e : Entry) : String := pyStrip (e.user.getD "")

/-- Pass 1 of `populate_from_log`: JSON-decode errors are logged and
skipped, records with an empty/whitespace-only user are skipped
(`continue`); the rest become `entries_to_insert`. -/
def parsedEntries (lines : List LogLine) : List Entry :=
  lines.filterMap (fun l =>
    match l with
    | LogLine.malformed => none
    | LogLine.record e => if entryUser e = "" then none else some e)

/-- The value `_resolve_canonical_user` returns (it never depends on the
`users` table, only on `user_aliases`). -/
def resolveValue (db : DB) (u : String) : String :=
  (aliasLookup db.aliases u).getD u

/-- `SELECT id FROM plays WHERE timestamp = ? AND canonical_name = ? AND song = ?`
has a row. -/
def tripleExists (plays : List Play) (ts cu sg : String) : Bool :=
  plays.any (fun p => p.timestamp = ts && p.name = cu && p.song = sg)

/-- Pass 2 of `populate_from_log`, inside the outer transaction: for each
entry, `entry["timestamp"]` / `entry["song"]` raise `KeyError` (modelled as
`none`) when the key is absent — this access sits outside any
`try`/`except`; otherwise the dedup check skips existing triples and new
rows are appended with `completed = 1` and `entry.get("duration", 0)`. -/
def insertLoop (userMap : String → String) :
    List Entry → List Play → Nat → Option (List Play × Nat)
  | [], plays, nid => some (plays, nid)
  | e :: es, plays, nid =>
    match e.timestamp with
    | none => none
    | some ts =>
      match e.song with
      | none => none
      | some sg =>
        let cu := userMap (entryUser e)
        if tripleExists plays ts cu sg then
          insertLoop userMap es plays nid
        else
          insertLoop userMap es
            (plays ++ [{ id := nid, timestamp := ts, name := cu, song := sg,
                         duration := some (e.duration.getD 0), completed := true }])
            (nid + 1)

/-- `populate_from_log`: parse pass, then batch resolution of all distinct
users (each in its own committed connection, so these `users` inserts
survive), then the insert pass in one transaction.  A `KeyError` escaping
the insert pass rolls the transaction back (plays and the auto-increment
counter revert) and propagates: the returned flag is `true` exactly when
the call raises to the caller.  Distinct users are resolved in first-
occurrence order (Python iterates a `set`; only the order of `users` rows
can differ, which no query result here depends on). -/
def populate_from_log (db : DB) (lines : List LogLine) : DB × Bool :=
  let entries := parsedEntries lines
  let usersToResolve := dedupFirst (entries.map entryUser)
  let db1 := usersToResolve.foldl (fun d u => (resolveCanonicalUser d u).1) db
  match insertLoop (resolveValue db) entries db1.plays db1.nextId with
  | some r => ({ db1 with plays := r.1, nextId := r.2 }, false)
  | none => (db1, true)

/-- The state used for the C6 counterexample: performer "a" has two
completed plays, performer "b" has one. -/
def dbC6 : DB :=
  { users := ["a", "b"], aliases := [],
    plays := [
      { id := 1, timestamp := "2025-01-01 10:00:00", name := "a", song := "s1",
        duration := none, completed := true },
      { id := 2, timestamp := "2025-01-02 10:00:00", name := "a", song := "s2",
        duration := none, completed := true },
      { id := 3, timestamp := "2025-01-03 10:00:00", name := "b", song := "s1",
        duration := none, completed := true }],
    nextId := 4 }

/-- A sample populated state used by several witnesses. -/
def dbSample : DB :=
  { users := ["a", "b"], aliases := [("bee", "b")],
    plays := [
      { id := 1, timestamp := "2025-01-01 10:00:00", name := "a", song := "s1",
        duration := none, completed := true },
      { id := 2, timestamp := "2025-01-02 10:00:00", name := "a", song := "s2",
        duration := some 30, completed := true },
      { id := 3, timestamp := "2025-01-03 10:00:00", name := "b", song := "s1",
        duration := none, completed := true }],
    nextId := 4 }

/-- The single-row editing function `update_play` applies to the plays
list: set the name when a truthy user is given, then the song. -/
def updateFn (pid : Nat) (user song : Option String) (cu : String) (x : Play) : Play :=
  let y := match truthy user with
    | some _ => if x.id = pid then { x with name := cu } else x
    | none => x
  match truthy song with
  | some s => if y.id = pid then { y with song := s } else y
  | none => y

/-- The state after the batch-resolution pass of `populate_from_log`. -/
def foldDB (db : DB) (lines : List LogLine) : DB :=
  (dedupFirst ((parsedEntries lines).map entryUser)).foldl
    (fun d u => (resolveCanonicalUser d u).1) db

-- Basic lemmas about insert-if-missing and alias lookup.

theorem mem_insertUserIfMissing (db : DB) (n : String) :
    n ∈ (insertUserIfMissing db n).users := by
  by_cases h : n ∈ db.users <;> simp [insertUserIfMissing, h]

theorem insertUserIfMissing_aliases (db : DB) (n : String) :
    (insertUserIfMissing db n).aliases = db.aliases := by
  by_cases h : n ∈ db.users <;> simp [insertUserIfMissing, h]

theorem insertUserIfMissing_plays (db : DB) (n : String) :
    (insertUserIfMissing db n).plays = db.plays := by
  by_cases h : n ∈ db.users <;> simp [insertUserIfMissing, h]

theorem insertUserIfMissing_nextId (db : DB) (n : String) :
    (insertUserIfMissing db n).nextId = db.nextId := by
  by_cases h : n ∈ db.users <;> simp [insertUserIfMissing, h]

theorem insertUserIfMissing_of_mem {db : DB} {n : String} (h : n ∈ db.users) :
    insertUserIfMissing db n = db := by
  simp [insertUserIfMissing, h]

theorem aliasLookup_filter_append (l : List (String × String)) (a c : String) :
    aliasLookup ((l.filter (fun p => p.1 ≠ a)) ++ [(a, c)]) a = some c := by
  induction l with
  | nil => simp [aliasLookup]
  | cons hd tl ih =>
    by_cases h : hd.1 = a
    · simpa [h] using ih
    · simpa [aliasLookup, h] using ih

theorem aliasLookup_filter_self (l : List (String × String)) (a : String) :
    aliasLookup (l.filter (fun p => p.1 ≠ a)) a = none := by
  induction l with
  | nil => simp [aliasLookup]
  | cons hd tl ih =>
    by_cases h : hd.1 = a
    · simpa [h] using ih
    · simpa [aliasLookup, h] using ih

/-- Claim C2: `resolve` is alias precedence then insert-if-missing: a
registered alias key returns its mapped canonical identity with no write;
any other name returns itself, a canonical row for it exists afterwards,
the aliases and plays tables are untouched, an existing canonical row
leaves the state entirely unchanged, and a second call on the resulting
state performs no additional write. -/
theorem resolve_alias_precedence_then_insert (db : DB) (n : String) :
    (∀ c, aliasLookup db.aliases n = some c → resolveCanonicalUser db n = (db, c)) ∧
    (aliasLookup db.aliases n = none →
      (resolveCanonicalUser db n).2 = n ∧
      n ∈ (resolveCanonicalUser db n).1.users ∧
      (resolveCanonicalUser db n).1.aliases = db.aliases ∧
      (resolveCanonicalUser db n).1.plays = db.plays ∧
      (n ∈ db.users → (resolveCanonicalUser db n).1 = db) ∧
      resolveCanonicalUser (resolveCanonicalUser db n).1 n =
        ((resolveCanonicalUser db n).1, n)) := by
  constructor
  · intro c hc
    simp [resolveCanonicalUser, hc]
  · intro hn
    have h1 : (resolveCanonicalUser db n).1 = insertUserIfMissing db n := by
      simp [resolveCanonicalUser, hn]
    refine ⟨by simp [resolveCanonicalUser, hn], ?_, ?_, ?_, ?_, ?_⟩
    · rw [h1]; exact mem_insertUserIfMissing db n
    · rw [h1]; exact insertUserIfMissing_aliases db n
    · rw [h1]; exact insertUserIfMissing_plays db n
    · intro h
      rw [h1]
      exact insertUserIfMissing_of_mem h
    · rw [h1]
      have hlook : aliasLookup (insertUserIfMissing db n).aliases n = none := by
        rw [insertUserIfMissing_aliases]; exact hn
      simp only [resolveCanonicalUser, hlook]
      rw [insertUserIfMissing_of_mem (mem_insertUserIfMissing db n)]

/-- Witness for C2 at a concrete state and name. -/
theorem resolve_alias_precedence_then_insert_witness :
    (resolveCanonicalUser ⟨["alice"], [("al", "alice")], [], 1⟩ "al" =
      (⟨["alice"], [("al", "alice")], [], 1⟩, "alice")) ∧
    ((resolveCanonicalUser ⟨["alice"], [("al", "alice")], [], 1⟩ "bob").2 = "bob") ∧
    ("bob" ∈ (resolveCanonicalUser ⟨["alice"], [("al", "alice")], [], 1⟩ "bob").1.users) := by
  refine ⟨?_, ?_, ?_⟩
  · exact (resolve_alias_precedence_then_insert ⟨["alice"], [("al", "alice")], [], 1⟩ "al").1
      "alice" (by decide)
  · exact ((resolve_alias_precedence_then_insert
      ⟨["alice"], [("al", "alice")], [], 1⟩ "bob").2 (by decide)).1
  · exact ((resolve_alias_precedence_then_insert
      ⟨["alice"], [("al", "alice")], [], 1⟩ "bob").2 (by decide)).2.1

/-- Claim C4: after `set_user_alias a c`, resolving `a` yields `c`
(for every prior state, so also when `a` resolved to itself or elsewhere);
after `remove_user_alias a` no alias row for `a` remains, so resolving `a`
yields `a` again. -/
theorem setAlias_removeAlias_resolution (db : DB) (a c : String) :
    (resolveCanonicalUser (set_user_alias db a c) a).2 = c ∧
    (resolveCanonicalUser (remove_user_alias db a) a).2 = a := by
  constructor
  · have h : aliasLookup (set_user_alias db a c).aliases a = some c := by
      simp only [set_user_alias]
      exact aliasLookup_filter_append _ a c
    simp [resolveCanonicalUser, h]
  · have h : aliasLookup (remove_user_alias db a).aliases a = none := by
      simp only [remove_user_alias]
      exact aliasLookup_filter_self _ a
    simp [resolveCanonicalUser, h]
-- Lemmas about the insertion sort used for ORDER BY.

theorem length_insertLe {α : Type} (le : α → α → Bool) (x : α) (l : List α) :
    (insertLe le x l).length = l.length + 1 := by
  induction l with
  | nil => rfl
  | cons y ys ih =>
    rw [insertLe]
    split
    · simp
    · simp [ih]

theorem length_insSortBy {α : Type} (le : α → α → Bool) (l : List α) :
    (insSortBy le l).length = l.length := by
  induction l with
  | nil => rfl
  | cons y ys ih => rw [insSortBy, length_insertLe, ih, List.length_cons]

theorem mem_insertLe {α : Type} (le : α → α → Bool) (x a : α) (l : List α) :
    a ∈ insertLe le x l ↔ a = x ∨ a ∈ l := by
  induction l with
  | nil => simp [insertLe]
  | cons y ys ih =>
    rw [insertLe]
    split
    · simp
    · simp [ih]
      tauto

theorem mem_insSortBy {α : Type} (le : α → α → Bool) (a : α) (l : List α) :
    a ∈ insSortBy le l ↔ a ∈ l := by
  induction l with
  | nil => simp [insSortBy]
  | cons y ys ih =>
    rw [insSortBy, mem_insertLe]
    simp [ih]

theorem pairwise_insertLe {α : Type} {le : α → α → Bool}
    (htot : ∀ a b, le a b = true ∨ le b a = true)
    (htrans : ∀ a b c, le a b = true → le b c = true → le a c = true)
    (x : α) {l : List α} (h : l.Pairwise (fun a b => le a b = true)) :
    (insertLe le x l).Pairwise (fun a b => le a b = true) := by
  induction l with
  | nil => simp [insertLe]
  | cons y ys ih =>
    rw [insertLe]
    rcases List.pairwise_cons.mp h with ⟨hy, hys⟩
    split
    · rename_i hxy
      refine List.pairwise_cons.mpr ⟨?_, h⟩
      intro b hb
      rcases List.mem_cons.mp hb with hb | hb
      · subst hb; exact hxy
      · exact htrans x y b hxy (hy b hb)
    · rename_i hxy
      have hyx : le y x = true := by
        rcases htot x y with hc | hc
        · exact absurd hc hxy
        · exact hc
      refine List.pairwise_cons.mpr ⟨?_, ih hys⟩
      intro b hb
      rcases (mem_insertLe le x b ys).mp hb with hb | hb
      · subst hb; exact hyx
      · exact hy b hb

theorem pairwise_insSortBy {α : Type} {le : α → α → Bool}
    (htot : ∀ a b, le a b = true ∨ le b a = true)
    (htrans : ∀ a b c, le a b = true → le b c = true → le a c = true)
    (l : List α) :
    (insSortBy le l).Pairwise (fun a b => le a b = true) := by
  induction l with
  | nil => simp [insSortBy]
  | cons y ys ih => exact pairwise_insertLe htot htrans y ih

-- Order facts about charListLt / strLt.

theorem charListLt_irrefl : ∀ a : List Char, charListLt a a = false := by
  intro a
  induction a with
  | nil => rfl
  | cons c cs ih => simp [charListLt, ih]

theorem charListLt_trans :
    ∀ a b c : List Char, charListLt a b = true → charListLt b c = true →
      charListLt a c = true := by
  intro a
  induction a with
  | nil =>
    intro b c hab hbc
    cases b with
    | nil => exact absurd hab (by simp [charListLt])
    | cons y ys =>
      cases c with
      | nil => exact absurd hbc (by simp [charListLt])
      | cons z zs => simp [charListLt]
  | cons x xs ih =>
    intro b c hab hbc
    cases b with
    | nil => exact absurd hab (by simp [charListLt])
    | cons y ys =>
      cases c with
      | nil => exact absurd hbc (by simp [charListLt])
      | cons z zs =>
        simp only [charListLt] at hab hbc ⊢
        by_cases hxy : x < y
        · by_cases hyz : y < z
          · simp [lt_trans hxy hyz]
          · by_cases hzy : z < y
            · simp only [if_pos hxy] at hab
              simp [hyz, hzy] at hbc
            · have hyz' : y = z := le_antisymm (le_of_not_lt hzy) (le_of_not_lt hyz)
              subst hyz'
              simp [hxy]
        · by_cases hyx : y < x
          · simp [hxy, hyx] at hab
          · have hxy' : x = y := le_antisymm (le_of_not_lt hyx) (le_of_not_lt hxy)
            subst hxy'
            simp only [if_neg hxy, if_neg hyx] at hab
            by_cases hyz : x < z
            · simp [hyz]
            · by_cases hzy : z < x
              · simp [hyz, hzy] at hbc
              · simp only [if_neg hyz, if_neg hzy] at hbc ⊢
                exact ih ys zs hab hbc

theorem charListLt_connex :
    ∀ a b : List Char, charListLt a b = true ∨ a = b ∨ charListLt b a = true := by
  intro a
  induction a with
  | nil =>
    intro b
    cases b with
    | nil => simp
    | cons y ys => simp [charListLt]
  | cons x xs ih =>
    intro b
    cases b with
    | nil => simp [charListLt]
    | cons y ys =>
      rcases lt_trichotomy x y with h | h | h
      · left; simp [charListLt, h]
      · subst h
        rcases ih ys with h2 | h2 | h2
        · left; simp [charListLt, lt_irrefl, h2]
        · right; left; rw [h2]
        · right; right; simp [charListLt, lt_irrefl, h2]
      · right; right; simp [charListLt, h, asymm h]

theorem strLt_asymm (s t : String) (h : strLt s t = true) : strLt t s = false := by
  by_contra hc
  have h2 : strLt t s = true := by
    cases hval : strLt t s with
    | false => exact absurd hval hc
    | true => rfl
  have h3 : strLt s s = true := by
    unfold strLt at *
    exact charListLt_trans _ _ _ h h2
  unfold strLt at h3
  rw [charListLt_irrefl] at h3
  exact Bool.false_ne_true h3

theorem strLt_notLt_total (s t : String) : (!(strLt s t)) = true ∨ (!(strLt t s)) = true := by
  by_cases h : strLt s t = true
  · right; rw [strLt_asymm s t h]; rfl
  · left; simp [Bool.not_eq_true] at h; rw [h]; rfl

theorem strLt_notLt_trans (a b c : String)
    (h1 : (!(strLt b a)) = true) (h2 : (!(strLt c b)) = true) : (!(strLt c a)) = true := by
  simp only [Bool.not_eq_true'] at h1 h2 ⊢
  by_contra hc
  have hca : strLt c a = true := by
    cases hval : strLt c a with
    | false => exact absurd hval hc
    | true => rfl
  unfold strLt at h1 h2 hca
  rcases charListLt_connex c.data b.data with h | h | h
  · rw [h] at h2
    simp at h2
  · rw [h] at hca
    rw [hca] at h1
    simp at h1
  · have ht := charListLt_trans _ _ _ h hca
    rw [ht] at h1
    simp at h1

-- Totality and transitivity of the get_top_users comparator.

theorem rowLe_total (sb so : String) (a b : String × Nat) :
    rowLe sb so a b = true ∨ rowLe sb so b a = true := by
  unfold rowLe
  split
  · split
    · exact strLt_notLt_total b.1 a.1
    · exact strLt_notLt_total a.1 b.1
  · split
    · rcases Nat.le_total a.2 b.2 with h | h
      · left; exact decide_eq_true h
      · right; exact decide_eq_true h
    · rcases Nat.le_total b.2 a.2 with h | h
      · left; exact decide_eq_true h
      · right; exact decide_eq_true h

theorem rowLe_trans (sb so : String) (a b c : String × Nat)
    (h1 : rowLe sb so a b = true) (h2 : rowLe sb so b c = true) :
    rowLe sb so a c = true := by
  unfold rowLe at h1 h2 ⊢
  revert h1 h2
  split
  · split
    · exact fun h1 h2 => strLt_notLt_trans a.1 b.1 c.1 h1 h2
    · exact fun h1 h2 => strLt_notLt_trans c.1 b.1 a.1 h2 h1
  · split
    · intro h1 h2
      exact decide_eq_true (Nat.le_trans (of_decide_eq_true h1) (of_decide_eq_true h2))
    · intro h1 h2
      exact decide_eq_true (Nat.le_trans (of_decide_eq_true h2) (of_decide_eq_true h1))

/-- Claim C6 (counterexample): the pair `sort_by = "user"`,
`sort_order = "bogus"` is outside `{user, count} × {ASC, DESC}`, so by the
claim the result should fall back to count/descending — but the code keeps
the valid `sort_by = "user"` and only replaces the invalid order, giving
`[("b", 1), ("a", 2)]` instead of `[("a", 2), ("b", 1)]`. -/
theorem topUsers_fallback_claim_counterexample :
    get_top_users dbC6 10 0 "user" "bogus" ≠ get_top_users dbC6 10 0 "count" "DESC" := by
  decide

/-- Claim C6 (amended): each sort parameter is validated separately —
an invalid `sort_by` falls back to `"count"` and an invalid `sort_order`
falls back to `"DESC"`, a valid parameter is honored even if the other is
invalid; the returned page is sorted by the (normalized) requested key and
direction and holds at most `limit` rows. -/
theorem get_top_users_eq (db : DB) (lim off : Nat) (sb so : String) :
    get_top_users db lim off sb so =
      ((insSortBy (rowLe (if sb = "user" ∨ sb = "count" then sb else "count")
          (if so = "ASC" ∨ so = "DESC" then so else "DESC"))
        (((dedupFirst ((completedPlays db).map Play.name)).filter (fun u => u ∈ db.users)).map
          (fun u => (u, ((completedPlays db).filter (fun p => p.name = u)).length *
            db.users.count u)))).drop off).take lim := rfl

theorem topUsers_sorted_with_per_parameter_fallback
    (db : DB) (lim off : Nat) (sb so : String) :
    (get_top_users db lim off sb so).length ≤ lim ∧
    (get_top_users db lim off sb so).Pairwise
      (fun a b => rowLe (if sb = "user" ∨ sb = "count" then sb else "count")
        (if so = "ASC" ∨ so = "DESC" then so else "DESC") a b = true) ∧
    get_top_users db lim off sb so =
      get_top_users db lim off (if sb = "user" ∨ sb = "count" then sb else "count")
        (if so = "ASC" ∨ so = "DESC" then so else "DESC") := by
  refine ⟨?_, ?_, ?_⟩
  · rw [get_top_users_eq, List.length_take]
    exact Nat.min_le_left _ _
  · rw [get_top_users_eq]
    have hp := pairwise_insSortBy
      (rowLe_total (if sb = "user" ∨ sb = "count" then sb else "count")
        (if so = "ASC" ∨ so = "DESC" then so else "DESC"))
      (rowLe_trans (if sb = "user" ∨ sb = "count" then sb else "count")
        (if so = "ASC" ∨ so = "DESC" then so else "DESC"))
      (((dedupFirst ((completedPlays db).map Play.name)).filter (fun u => u ∈ db.users)).map
        (fun u => (u, ((completedPlays db).filter (fun p => p.name = u)).length *
          db.users.count u)))
    exact hp.sublist ((List.take_sublist _ _).trans (List.drop_sublist _ _))
  · rw [get_top_users_eq, get_top_users_eq]
    have h1 : (if (if sb = "user" ∨ sb = "count" then sb else "count") = "user" ∨
        (if sb = "user" ∨ sb = "count" then sb else "count") = "count"
        then (if sb = "user" ∨ sb = "count" then sb else "count") else "count") =
        (if sb = "user" ∨ sb = "count" then sb else "count") := by
      by_cases hsb : sb = "user" ∨ sb = "count"
      · simp only [if_pos hsb]
      · simp only [if_neg hsb]
        decide
    have h2 : (if (if so = "ASC" ∨ so = "DESC" then so else "DESC") = "ASC" ∨
        (if so = "ASC" ∨ so = "DESC" then so else "DESC") = "DESC"
        then (if so = "ASC" ∨ so = "DESC" then so else "DESC") else "DESC") =
        (if so = "ASC" ∨ so = "DESC" then so else "DESC") := by
      by_cases hso : so = "ASC" ∨ so = "DESC"
      · simp only [if_pos hso]
      · simp only [if_neg hso]
        decide
    rw [h1, h2]

/-- Claim C5: a period outside `{day, month, year}` makes
`get_top_songs_by_period` raise a `ValueError` (modelled as
`Except.error`), never a silently returned list; for a valid period the
call returns the completed-play counts per song of the current bucket,
ordered by count descending and truncated to `limit`. -/
theorem topSongsByPeriod_validation (db : DB) (now period : String) (lim : Nat) :
    ((period ≠ "day" ∧ period ≠ "month" ∧ period ≠ "year") →
      get_top_songs_by_period db now period lim = Except.error "Invalid period") ∧
    (∀ l, get_top_songs_by_period db now period lim = Except.ok l →
      (period = "day" ∨ period = "month" ∨ period = "year") ∧
      l.length ≤ lim ∧
      l.Pairwise (fun a b => b.2 ≤ a.2) ∧
      ∀ sn ∈ l, ∃ k, periodKeyLen period = some k ∧
        sn.2 = ((db.plays.filter
            (fun p => p.completed && prefixTake k p.timestamp = prefixTake k now)).filter
          (fun p => p.song = sn.1)).length) := by
  constructor
  · intro hbad
    have hk : periodKeyLen period = none := by
      unfold periodKeyLen
      rw [if_neg hbad.1, if_neg hbad.2.1, if_neg hbad.2.2]
    simp [get_top_songs_by_period, hk]
  · intro l hl
    cases hk : periodKeyLen period with
    | none => simp [get_top_songs_by_period, hk] at hl
    | some k =>
      have hvalid : period = "day" ∨ period = "month" ∨ period = "year" := by
        by_contra hbad
        push_neg at hbad
        unfold periodKeyLen at hk
        rw [if_neg hbad.1, if_neg hbad.2.1, if_neg hbad.2.2] at hk
        cases hk
      have heq : l = (insSortBy (fun a b => decide (b.2 ≤ a.2))
          ((dedupFirst (((db.plays.filter
              (fun p => p.completed && prefixTake k p.timestamp = prefixTake k now))).map
              Play.song)).map
            (fun s => (s, ((db.plays.filter
                (fun p => p.completed && prefixTake k p.timestamp = prefixTake k now)).filter
              (fun p => p.song = s)).length)))).take lim := by
        simp only [get_top_songs_by_period, hk] at hl
        exact (Except.ok.injEq _ _ ▸ hl).symm
      refine ⟨hvalid, ?_, ?_, ?_⟩
      · rw [heq, List.length_take]
        exact Nat.min_le_left _ _
      · rw [heq]
        have hp := @pairwise_insSortBy (String × Nat)
          (fun a b => decide (b.2 ≤ a.2))
          (fun a b => by
            rcases Nat.le_total b.2 a.2 with h | h
            · left; exact decide_eq_true h
            · right; exact decide_eq_true h)
          (fun a b c h1 h2 =>
            decide_eq_true (Nat.le_trans (of_decide_eq_true h2) (of_decide_eq_true h1)))
          ((dedupFirst (((db.plays.filter
              (fun p => p.completed && prefixTake k p.timestamp = prefixTake k now))).map
              Play.song)).map
            (fun s => (s, ((db.plays.filter
                (fun p => p.completed && prefixTake k p.timestamp = prefixTake k now)).filter
              (fun p => p.song = s)).length)))
        exact (hp.sublist (List.take_sublist _ _)).imp (fun h => of_decide_eq_true h)
      · intro sn hsn
        rw [heq] at hsn
        have hsn2 := (mem_insSortBy _ sn _).mp (List.mem_of_mem_take hsn)
        rcases List.mem_map.mp hsn2 with ⟨s, _, hs2⟩
        refine ⟨k, rfl, ?_⟩
        rw [← hs2]

/-- Witness for C5: `"period_typo"` is rejected with the validation error,
and a valid period returns an ordered list within the limit. -/
theorem topSongsByPeriod_validation_witness :
    (get_top_songs_by_period dbSample "2025-01-03 12:00:00" "period_typo" 10 =
      Except.error "Invalid period") ∧
    (("day" : String) = "day" ∨ ("day" : String) = "month" ∨ ("day" : String) = "year") ∧
    [(("s1" : String), (1 : Nat))].length ≤ 10 := by
  refine ⟨?_, ?_, ?_⟩
  · exact (topSongsByPeriod_validation dbSample "2025-01-03 12:00:00" "period_typo" 10).1
      ⟨by decide, by decide, by decide⟩
  · exact ((topSongsByPeriod_validation dbSample "2025-01-03 12:00:00" "day" 10).2
      [("s1", 1)] (by rfl)).1
  · exact ((topSongsByPeriod_validation dbSample "2025-01-03 12:00:00" "day" 10).2
      [("s1", 1)] (by rfl)).2.1

-- Component-preservation lemmas for the resolver's state effect.

theorem resolveCanonicalUser_fst_plays (db : DB) (u : String) :
    (resolveCanonicalUser db u).1.plays = db.plays := by
  unfold resolveCanonicalUser
  cases aliasLookup db.aliases u with
  | none => exact insertUserIfMissing_plays db u
  | some c => rfl

theorem resolveCanonicalUser_fst_aliases (db : DB) (u : String) :
    (resolveCanonicalUser db u).1.aliases = db.aliases := by
  unfold resolveCanonicalUser
  cases aliasLookup db.aliases u with
  | none => exact insertUserIfMissing_aliases db u
  | some c => rfl

theorem resolveCanonicalUser_fst_nextId (db : DB) (u : String) :
    (resolveCanonicalUser db u).1.nextId = db.nextId := by
  unfold resolveCanonicalUser
  cases aliasLookup db.aliases u with
  | none => exact insertUserIfMissing_nextId db u
  | some c => rfl

theorem resolveCanonicalUser_snd (db : DB) (u : String) :
    (resolveCanonicalUser db u).2 = resolveValue db u := by
  unfold resolveCanonicalUser resolveValue
  cases aliasLookup db.aliases u with
  | none => rfl
  | some c => rfl

/-- Claim C7: counting with a date and performer filter agrees with the
length of `get_last_plays` taken with offset 0 and any limit at least the
count (the "unbounded limit" of the spec): both build the identical filter
predicate. -/
theorem playsCount_eq_length_lastPlays (db : DB) (d p : Option String) (n : Nat)
    (h : (get_plays_count db d p).2 ≤ n) :
    (get_plays_count db d p).2 = ((get_last_plays db n 0 d p).2).length := by
  simp only [get_plays_count, get_last_plays]
  rw [List.drop_zero, List.length_take, List.length_map, length_insSortBy]
  exact (Nat.min_eq_right h).symm

/-- Witness for C7 on a populated sample state. -/
theorem playsCount_eq_length_lastPlays_witness :
    (get_plays_count dbSample none (some "a")).2 =
      ((get_last_plays dbSample 5 0 none (some "a")).2).length :=
  playsCount_eq_length_lastPlays dbSample none (some "a") 5 (by decide)

/-- Claim C10: a read-only query with a performer filter naming an unseen,
non-alias, non-empty name writes: `get_last_plays`, `get_plays_count` and
`get_plays_by_user` all return with a new Canonical Identity row appended
for that name. -/
theorem filter_queries_insert_identity (db : DB) (p : String) (d : Option String)
    (lim off : Nat) (h1 : p ≠ "") (h2 : aliasLookup db.aliases p = none)
    (h3 : p ∉ db.users) :
    (get_last_plays db lim off d (some p)).1.users = db.users ++ [p] ∧
    (get_plays_count db d (some p)).1.users = db.users ++ [p] ∧
    (get_plays_by_user db (some p) d).1.users = db.users ++ [p] := by
  have htr : truthy (some p) = some p := by simp [truthy, h1]
  have hres : resolveCanonicalUser db p = ({ db with users := db.users ++ [p] }, p) := by
    simp [resolveCanonicalUser, h2, insertUserIfMissing, h3]
  have hres2 : resolveCanonicalUser { db with users := db.users ++ [p] } p =
      ({ db with users := db.users ++ [p] }, p) := by
    simp [resolveCanonicalUser, h2, insertUserIfMissing]
  refine ⟨?_, ?_, ?_⟩
  · simp [get_last_plays, build_filter_clause, htr, hres]
  · simp [get_plays_count, build_filter_clause, htr, hres]
  · simp [get_plays_by_user, build_filter_clause, htr, hres, hres2]

/-- Witness for C10: the name "carol" is unseen in `dbSample`; each of the
three filtered reads inserts it. -/
theorem filter_queries_insert_identity_witness :
    (get_last_plays dbSample 10 0 none (some "carol")).1.users = dbSample.users ++ ["carol"] ∧
    (get_plays_count dbSample none (some "carol")).1.users = dbSample.users ++ ["carol"] ∧
    (get_plays_by_user dbSample (some "carol") none).1.users = dbSample.users ++ ["carol"] :=
  filter_queries_insert_identity dbSample "carol" none 10 0 (by decide) (by decide) (by decide)

theorem zip_map_self {α β : Type} (f : α → β) (l : List α) :
    l.zip (l.map f) = l.map (fun a => (a, f a)) := by
  induction l with
  | nil => rfl
  | cons x xs ih => simp [ih]

theorem update_play_plays_eq_map (db : DB) (pid : Nat) (user song : Option String) :
    ∃ cu, (update_play db pid user song).plays =
      db.plays.map (updateFn pid user song cu) := by
  cases hu : truthy user with
  | none =>
    cases hs : truthy song with
    | none =>
      refine ⟨"", ?_⟩
      simp only [update_play, hu, hs]
      rw [List.map_congr_left
        (fun x (_ : x ∈ db.plays) => show updateFn pid user song "" x = id x by
          simp [updateFn, hu, hs])]
      exact (List.map_id db.plays).symm
    | some s =>
      refine ⟨"", ?_⟩
      simp only [update_play, hu, hs]
      exact List.map_congr_left (fun x _ => by simp [updateFn, hu, hs])
  | some u =>
    refine ⟨(resolveCanonicalUser db u).2, ?_⟩
    cases hs : truthy song with
    | none =>
      simp only [update_play, hu, hs]
      rw [resolveCanonicalUser_fst_plays]
      exact List.map_congr_left (fun x _ => by simp [updateFn, hu, hs])
    | some s =>
      simp only [update_play, hu, hs]
      rw [resolveCanonicalUser_fst_plays, List.map_map]
      refine List.map_congr_left (fun x _ => ?_)
      by_cases hx : x.id = pid <;> simp [Function.comp, updateFn, hu, hs, hx]

theorem updateFn_id_of_ne (pid : Nat) (user song : Option String) (cu : String)
    (x : Play) (hx : x.id ≠ pid) : updateFn pid user song cu x = x := by
  unfold updateFn
  cases truthy user with
  | none =>
    cases truthy song with
    | none => rfl
    | some s => simp [hx]
  | some u =>
    cases truthy song with
    | none => simp [hx]
    | some s => simp [hx]

theorem updateFn_fields (pid : Nat) (user song : Option String) (cu : String) (x : Play) :
    (updateFn pid user song cu x).id = x.id ∧
    (updateFn pid user song cu x).timestamp = x.timestamp ∧
    (updateFn pid user song cu x).duration = x.duration ∧
    (updateFn pid user song cu x).completed = x.completed ∧
    (truthy user = none → (updateFn pid user song cu x).name = x.name) ∧
    (truthy song = none → (updateFn pid user song cu x).song = x.song) := by
  unfold updateFn
  cases hu : truthy user with
  | none =>
    cases hs : truthy song with
    | none => simp
    | some s =>
      by_cases hx : x.id = pid <;> simp [hx]
  | some u =>
    cases hs : truthy song with
    | none =>
      by_cases hx : x.id = pid <;> simp [hx]
    | some s =>
      by_cases hx : x.id = pid <;> simp [hx]

/-- Claim C9: `update_play` only touches the targeted row, and within it
only the provided fields: the plays list keeps its length, every row keeps
its id, timestamp, duration and completion flag, a row with a different id
is unchanged, an omitted user leaves every name unchanged, an omitted song
leaves every song unchanged; if no row has the id, the plays table is
byte-for-byte unchanged (and no error is raised — the function is total). -/
theorem updatePlay_frame (db : DB) (pid : Nat) (user song : Option String) :
    (update_play db pid user song).plays.length = db.plays.length ∧
    (∀ pr ∈ db.plays.zip (update_play db pid user song).plays,
      pr.2.id = pr.1.id ∧ pr.2.timestamp = pr.1.timestamp ∧
      pr.2.duration = pr.1.duration ∧ pr.2.completed = pr.1.completed ∧
      (pr.1.id ≠ pid → pr.2 = pr.1) ∧
      (truthy user = none → pr.2.name = pr.1.name) ∧
      (truthy song = none → pr.2.song = pr.1.song)) ∧
    ((∀ q ∈ db.plays, q.id ≠ pid) → (update_play db pid user song).plays = db.plays) := by
  obtain ⟨cu, hmap⟩ := update_play_plays_eq_map db pid user song
  have hzip : db.plays.zip ((update_play db pid user song).plays) =
      db.plays.map (fun a => (a, updateFn pid user song cu a)) := by
    rw [hmap, zip_map_self]
  refine ⟨by rw [hmap, List.length_map], ?_, ?_⟩
  · intro pr hpr
    rw [hzip] at hpr
    rcases List.mem_map.mp hpr with ⟨x, _, hx2⟩
    subst hx2
    obtain ⟨f1, f2, f3, f4, f5, f6⟩ := updateFn_fields pid user song cu x
    exact ⟨f1, f2, f3, f4, fun hne => updateFn_id_of_ne pid user song cu x hne, f5, f6⟩
  · intro hall
    rw [hmap]
    rw [List.map_congr_left (fun a ha => updateFn_id_of_ne pid user song cu a (hall a ha))]
    exact List.map_id db.plays

/-- Witness for C9: updating a nonexistent id 99 on the sample state, with
only a song provided, leaves the table unchanged; row ids are preserved. -/
theorem updatePlay_frame_witness :
    (update_play dbSample 99 none (some "t")).plays = dbSample.plays ∧
    (update_play dbSample 2 none (some "t")).plays.length = dbSample.plays.length := by
  constructor
  · exact (updatePlay_frame dbSample 99 none (some "t")).2.2 (by decide)
  · exact (updatePlay_frame dbSample 2 none (some "t")).1

theorem mem_of_mem_dedupFirst : ∀ {l : List String} {a : String}, a ∈ dedupFirst l → a ∈ l := by
  intro l
  induction l with
  | nil => intro a h; simp [dedupFirst] at h
  | cons x xs ih =>
    intro a h
    rw [dedupFirst] at h
    rcases List.mem_cons.mp h with h | h
    · exact List.mem_cons.mpr (Or.inl h)
    · exact List.mem_cons.mpr (Or.inr (ih (List.mem_of_mem_filter h)))

/-- Splitting a list into pages of size `L` by drop/take covers every
element exactly once: the page lengths sum to the list length. -/
theorem pages_sum {α : Type} (L : Nat) (hL : 0 < L) :
    ∀ (n : Nat) (l : List α), l.length = n →
      (∑ pg in Finset.range ((n + L - 1) / L), ((l.drop (pg * L)).take L).length) = n := by
  intro n
  induction n using Nat.strong_induction_on with
  | _ n ih =>
    intro l hl
    rcases Nat.eq_zero_or_pos n with h0 | hpos
    · subst h0
      have hz : (0 + L - 1) / L = 0 := Nat.div_eq_of_lt (by omega)
      rw [hz]
      simp
    · have hstep : (n + L - 1) / L = ((n - L) + L - 1) / L + 1 := by
        rcases le_or_lt L n with hLe | hLt
        · have he : n + L - 1 = ((n - L) + L - 1) + L := by omega
          rw [he, Nat.add_div_right _ hL]
        · have h1 : n - L = 0 := by omega
          rw [h1]
          have h2 : (0 + L - 1) / L = 0 := Nat.div_eq_of_lt (by omega)
          rw [h2]
          exact Nat.div_eq_of_lt_le (by omega) (by omega)
      rw [hstep, Finset.sum_range_succ']
      have h2 : ∀ pg ∈ Finset.range ((n - L + L - 1) / L),
          ((l.drop ((pg + 1) * L)).take L).length =
            (((l.drop L).drop (pg * L)).take L).length := by
        intro pg _
        have hidx : (pg + 1) * L = L + pg * L := by ring
        rw [hidx, ← List.drop_drop]
      have hlen : (l.drop L).length = n - L := by rw [List.length_drop, hl]
      rw [Finset.sum_congr rfl h2, ih (n - L) (by omega) (l.drop L) hlen]
      rw [Nat.zero_mul, List.drop_zero, List.length_take, hl]
      omega

/-- Claim C8: for every positive page size `L`, paging `get_top_users`
with `offset = page * L` over `⌈count / L⌉` pages returns every performer
with a completed play exactly once — the page lengths sum to
`get_top_users_count` (states reachable through the API keep every play's
canonical name registered in `users`, which is the hypothesis `hwf`). -/
theorem topUsers_pagination_total (db : DB) (L : Nat) (sb so : String) (hL : 0 < L)
    (hwf : ∀ q ∈ db.plays, q.completed = true → q.name ∈ db.users) :
    (∑ pg in Finset.range ((get_top_users_count db + L - 1) / L),
      (get_top_users db L (pg * L) sb so).length) = get_top_users_count db := by
  have hkeys : (dedupFirst ((completedPlays db).map Play.name)).filter
      (fun u => u ∈ db.users) = dedupFirst ((completedPlays db).map Play.name) := by
    apply List.filter_eq_self.mpr
    intro a ha
    have ha2 := mem_of_mem_dedupFirst ha
    rcases List.mem_map.mp ha2 with ⟨q, hq, hq2⟩
    have hq3 := List.mem_filter.mp hq
    subst hq2
    exact decide_eq_true (hwf q hq3.1 (by simpa using hq3.2))
  have hsl : (insSortBy (rowLe (if sb = "user" ∨ sb = "count" then sb else "count")
      (if so = "ASC" ∨ so = "DESC" then so else "DESC"))
      (((dedupFirst ((completedPlays db).map Play.name)).filter (fun u => u ∈ db.users)).map
        (fun u => (u, ((completedPlays db).filter (fun p => p.name = u)).length *
          db.users.count u)))).length = get_top_users_count db := by
    rw [length_insSortBy, List.length_map, hkeys]
    rfl
  rw [Finset.sum_congr rfl (fun pg _ => by rw [get_top_users_eq db L (pg * L) sb so])]
  exact pages_sum L hL (get_top_users_count db) _ hsl

/-- Witness for C8 on the sample state with page size 1: two pages of one
performer each. -/
theorem topUsers_pagination_total_witness :
    (∑ pg in Finset.range ((get_top_users_count dbSample + 1 - 1) / 1),
      (get_top_users dbSample 1 (pg * 1) "count" "DESC").length) =
      get_top_users_count dbSample := by
  apply topUsers_pagination_total dbSample 1 "count" "DESC" (by decide)
  intro q hq hqc
  fin_cases hq <;> simp_all <;> decide

-- Lemmas about the bulk importer.

theorem tripleExists_mono {p1 p2 : List Play} (hsub : ∀ q ∈ p1, q ∈ p2)
    {ts cu sg : String} (h : tripleExists p1 ts cu sg = true) :
    tripleExists p2 ts cu sg = true := by
  rcases List.any_eq_true.mp h with ⟨q, hq, hq2⟩
  exact List.any_eq_true.mpr ⟨q, hsub q hq, hq2⟩

theorem tripleExists_of_mem {plays : List Play} {q : Play} (hq : q ∈ plays) :
    tripleExists plays q.timestamp q.name q.song = true :=
  List.any_eq_true.mpr ⟨q, hq, by simp⟩

theorem insertLoop_none_iff (um : String → String) :
    ∀ (es : List Entry) (plays : List Play) (nid : Nat),
      insertLoop um es plays nid = none ↔
        es.any (fun e => e.timestamp.isNone || e.song.isNone) = true := by
  intro es
  induction es with
  | nil => intro plays nid; simp [insertLoop]
  | cons e es ih =>
    intro plays nid
    cases hts : e.timestamp with
    | none => simp [insertLoop, hts, List.any_cons]
    | some ts =>
      cases hsg : e.song with
      | none => simp [insertLoop, hts, hsg, List.any_cons]
      | some sg =>
        simp only [insertLoop, hts, hsg]
        by_cases hex : tripleExists plays ts (um (entryUser e)) sg = true
        · rw [if_pos hex, ih]
          simp [List.any_cons, hts, hsg]
        · rw [if_neg hex, ih]
          simp [List.any_cons, hts, hsg]

theorem insertLoop_some_facts (um : String → String) :
    ∀ (es : List Entry) (plays : List Play) (nid : Nat) (plays' : List Play) (nid' : Nat),
      insertLoop um es plays nid = some (plays', nid') →
      ((∀ q ∈ plays, q ∈ plays') ∧
       (∀ e ∈ es, ∀ ts sg, e.timestamp = some ts → e.song = some sg →
          tripleExists plays' ts (um (entryUser e)) sg = true) ∧
       (∀ q ∈ plays', q ∈ plays ∨ (q.completed = true ∧ ∃ e ∈ es,
          e.timestamp = some q.timestamp ∧ e.song = some q.song ∧
          q.name = um (entryUser e) ∧ q.duration = some (e.duration.getD 0)))) := by
  intro es
  induction es with
  | nil =>
    intro plays nid plays' nid' h
    simp only [insertLoop, Option.some.injEq, Prod.mk.injEq] at h
    obtain ⟨h1, _⟩ := h
    subst h1
    exact ⟨fun q hq => hq, by simp, fun q hq => Or.inl hq⟩
  | cons e es ih =>
    intro plays nid plays' nid' h
    cases hts : e.timestamp with
    | none => simp [insertLoop, hts] at h
    | some ts =>
      cases hsg : e.song with
      | none => simp [insertLoop, hts, hsg] at h
      | some sg =>
        simp only [insertLoop, hts, hsg] at h
        by_cases hex : tripleExists plays ts (um (entryUser e)) sg = true
        · rw [if_pos hex] at h
          obtain ⟨hsub, hcov, hprov⟩ := ih plays nid plays' nid' h
          refine ⟨hsub, ?_, ?_⟩
          · intro e' he' ts' sg' hts' hsg'
            rcases List.mem_cons.mp he' with he' | he'
            · rw [he'] at hts' hsg'
              rw [hts] at hts'
              rw [hsg] at hsg'
              injection hts' with hts2
              injection hsg' with hsg2
              rw [← hts2, ← hsg2, he']
              exact tripleExists_mono hsub hex
            · exact hcov e' he' ts' sg' hts' hsg'
          · intro q hq
            rcases hprov q hq with hql | hqr
            · exact Or.inl hql
            · obtain ⟨hc, e', he', rest⟩ := hqr
              exact Or.inr ⟨hc, e', List.mem_cons.mpr (Or.inr he'), rest⟩
        · rw [if_neg hex] at h
          obtain ⟨hsub, hcov, hprov⟩ := ih _ _ _ _ h
          have hnewmem : ({ id := nid, timestamp := ts, name := um (entryUser e), song := sg,
                            duration := some (e.duration.getD 0), completed := true } : Play)
              ∈ plays' :=
            hsub _ (by simp)
          refine ⟨fun q hq => hsub q (List.mem_append_left _ hq), ?_, ?_⟩
          · intro e' he' ts' sg' hts' hsg'
            rcases List.mem_cons.mp he' with he' | he'
            · rw [he'] at hts' hsg'
              rw [hts] at hts'
              rw [hsg] at hsg'
              injection hts' with hts2
              injection hsg' with hsg2
              rw [← hts2, ← hsg2, he']
              simpa using tripleExists_of_mem hnewmem
            · exact hcov e' he' ts' sg' hts' hsg'
          · intro q hq
            rcases hprov q hq with hql | hqr
            · rcases List.mem_append.mp hql with h1 | h1
              · exact Or.inl h1
              · have hq2 : q = { id := nid, timestamp := ts, name := um (entryUser e),
                                  song := sg, duration := some (e.duration.getD 0),
                                  completed := true } := by
                  simpa using h1
                refine Or.inr ⟨by rw [hq2], e, List.mem_cons.mpr (Or.inl rfl), ?_, ?_, ?_, ?_⟩
                · rw [hq2, hts]
                · rw [hq2, hsg]
                · rw [hq2]
                · rw [hq2]
            · obtain ⟨hc, e', he', rest⟩ := hqr
              exact Or.inr ⟨hc, e', List.mem_cons.mpr (Or.inr he'), rest⟩

theorem insertLoop_skip (um : String → String) :
    ∀ (es : List Entry) (plays : List Play) (nid : Nat),
      (∀ e ∈ es, ∀ ts sg, e.timestamp = some ts → e.song = some sg →
        tripleExists plays ts (um (entryUser e)) sg = true) →
      es.any (fun e => e.timestamp.isNone || e.song.isNone) = false →
      insertLoop um es plays nid = some (plays, nid) := by
  intro es
  induction es with
  | nil => intro plays nid _ _; rfl
  | cons e es ih =>
    intro plays nid hcov hfields
    cases hts : e.timestamp with
    | none =>
      rw [List.any_cons] at hfields
      simp [hts] at hfields
    | some ts =>
      cases hsg : e.song with
      | none =>
        rw [List.any_cons] at hfields
        simp [hts, hsg] at hfields
      | some sg =>
        have hex := hcov e (List.mem_cons.mpr (Or.inl rfl)) ts sg hts hsg
        simp only [insertLoop, hts, hsg]
        rw [if_pos hex]
        apply ih
        · intro e' he' ts' sg' h1 h2
          exact hcov e' (List.mem_cons.mpr (Or.inr he')) ts' sg' h1 h2
        · rw [List.any_cons] at hfields
          exact (Bool.or_eq_false_iff.mp hfields).2

-- The batch-resolution fold of populate_from_log and its state effect.

theorem foldResolve_plays (l : List String) :
    ∀ db : DB, (l.foldl (fun d u => (resolveCanonicalUser d u).1) db).plays = db.plays := by
  induction l with
  | nil => intro db; rfl
  | cons x xs ih => intro db; rw [List.foldl_cons, ih, resolveCanonicalUser_fst_plays]

theorem foldResolve_aliases (l : List String) :
    ∀ db : DB, (l.foldl (fun d u => (resolveCanonicalUser d u).1) db).aliases = db.aliases := by
  induction l with
  | nil => intro db; rfl
  | cons x xs ih => intro db; rw [List.foldl_cons, ih, resolveCanonicalUser_fst_aliases]

theorem foldResolve_nextId (l : List String) :
    ∀ db : DB, (l.foldl (fun d u => (resolveCanonicalUser d u).1) db).nextId = db.nextId := by
  induction l with
  | nil => intro db; rfl
  | cons x xs ih => intro db; rw [List.foldl_cons, ih, resolveCanonicalUser_fst_nextId]

theorem foldDB_plays (db : DB) (lines : List LogLine) :
    (foldDB db lines).plays = db.plays := foldResolve_plays _ db

theorem foldDB_aliases (db : DB) (lines : List LogLine) :
    (foldDB db lines).aliases = db.aliases := foldResolve_aliases _ db

theorem foldDB_nextId (db : DB) (lines : List LogLine) :
    (foldDB db lines).nextId = db.nextId := foldResolve_nextId _ db

theorem resolveValue_ext {db db' : DB} (h : db'.aliases = db.aliases) :
    resolveValue db' = resolveValue db := by
  funext u
  unfold resolveValue
  rw [h]

theorem populate_eq (db : DB) (lines : List LogLine) :
    populate_from_log db lines =
      match insertLoop (resolveValue db) (parsedEntries lines) db.plays db.nextId with
      | some r => ({ foldDB db lines with plays := r.1, nextId := r.2 }, false)
      | none => (foldDB db lines, true) := by
  simp only [populate_from_log, foldDB, foldResolve_plays, foldResolve_nextId]

/-- Claim C3: re-running the importer on the same source leaves the plays
table exactly as after one run (the dedup check on
(timestamp, canonical identity, song) skips every already-present record),
and every row a run adds was inserted with `completed = true` and the
duration defaulted to 0 when absent. -/
theorem import_idempotent (db : DB) (lines : List LogLine) :
    ((populate_from_log (populate_from_log db lines).1 lines).1).plays =
      ((populate_from_log db lines).1).plays ∧
    (∀ q ∈ ((populate_from_log db lines).1).plays,
      q ∈ db.plays ∨ (q.completed = true ∧ ∃ e ∈ parsedEntries lines,
        e.timestamp = some q.timestamp ∧ e.song = some q.song ∧
        q.name = resolveValue db (entryUser e) ∧
        q.duration = some (e.duration.getD 0))) := by
  cases hrun : insertLoop (resolveValue db) (parsedEntries lines) db.plays db.nextId with
  | none =>
    have h1 : populate_from_log db lines = (foldDB db lines, true) := by
      rw [populate_eq, hrun]
    have hrv : resolveValue (foldDB db lines) = resolveValue db :=
      resolveValue_ext (foldDB_aliases db lines)
    have hnone2 : insertLoop (resolveValue (foldDB db lines)) (parsedEntries lines)
        (foldDB db lines).plays (foldDB db lines).nextId = none := by
      rw [hrv, foldDB_plays, foldDB_nextId]
      exact hrun
    constructor
    · rw [h1]
      rw [populate_eq (foldDB db lines) lines, hnone2]
      exact foldDB_plays (foldDB db lines) lines
    · intro q hq
      rw [h1] at hq
      rw [foldDB_plays] at hq
      exact Or.inl hq
  | some r =>
    have h1 : populate_from_log db lines =
        ({ foldDB db lines with plays := r.1, nextId := r.2 }, false) := by
      rw [populate_eq, hrun]
    obtain ⟨hsub, hcov, hprov⟩ := insertLoop_some_facts (resolveValue db)
      (parsedEntries lines) db.plays db.nextId r.1 r.2 (by rw [hrun])
    constructor
    · have hrv : resolveValue ({ foldDB db lines with plays := r.1, nextId := r.2 } : DB) =
          resolveValue db := by
        apply resolveValue_ext
        show (foldDB db lines).aliases = db.aliases
        exact foldDB_aliases db lines
      have hfields : (parsedEntries lines).any
          (fun e => e.timestamp.isNone || e.song.isNone) = false := by
        cases hany : (parsedEntries lines).any (fun e => e.timestamp.isNone || e.song.isNone) with
        | false => rfl
        | true =>
          have hcontra := (insertLoop_none_iff (resolveValue db) (parsedEntries lines)
            db.plays db.nextId).mpr hany
          rw [hrun] at hcontra
          cases hcontra
      have hskip : insertLoop
          (resolveValue ({ foldDB db lines with plays := r.1, nextId := r.2 } : DB))
          (parsedEntries lines) r.1 r.2 = some (r.1, r.2) := by
        rw [hrv]
        apply insertLoop_skip
        · intro e he ts sg h1' h2'
          exact hcov e he ts sg h1' h2'
        · exact hfields
      rw [h1]
      rw [populate_eq ({ foldDB db lines with plays := r.1, nextId := r.2 } : DB) lines]
      have hpl : ({ foldDB db lines with plays := r.1, nextId := r.2 } : DB).plays = r.1 := rfl
      have hni : ({ foldDB db lines with plays := r.1, nextId := r.2 } : DB).nextId = r.2 := rfl
      rw [hpl, hni, hskip]
    · intro q hq
      rw [h1] at hq
      have hq2 : q ∈ r.1 := hq
      rcases hprov q hq2 with h | h
      · exact Or.inl h
      · exact Or.inr h

/-- Witness for C3: importing one well-formed record into the sample state
and checking the inserted row's provenance. -/
theorem import_idempotent_witness :
    ((populate_from_log (populate_from_log dbSample
        [LogLine.record { user := some "dave", timestamp := some "2025-05-05 05:05:05",
                          song := some "Song", duration := none }]).1
      [LogLine.record { user := some "dave", timestamp := some "2025-05-05 05:05:05",
                        song := some "Song", duration := none }]).1).plays =
      ((populate_from_log dbSample
        [LogLine.record { user := some "dave", timestamp := some "2025-05-05 05:05:05",
                          song := some "Song", duration := none }]).1).plays ∧
    (({ id := 4, timestamp := "2025-05-05 05:05:05", name := "dave", song := "Song",
        duration := some 0, completed := true } : Play) ∈ dbSample.plays ∨
      (true = true ∧ ∃ e ∈ parsedEntries
          [LogLine.record { user := some "dave", timestamp := some "2025-05-05 05:05:05",
                            song := some "Song", duration := none }],
        e.timestamp = some "2025-05-05 05:05:05" ∧ e.song = some "Song" ∧
        "dave" = resolveValue dbSample (entryUser e) ∧
        (some 0 : Option Int) = some (e.duration.getD 0))) := by
  constructor
  · exact (import_idempotent dbSample
      [LogLine.record { user := some "dave", timestamp := some "2025-05-05 05:05:05",
                        song := some "Song", duration := none }]).1
  · exact (import_idempotent dbSample
      [LogLine.record { user := some "dave", timestamp := some "2025-05-05 05:05:05",
                        song := some "Song", duration := none }]).2
      { id := 4, timestamp := "2025-05-05 05:05:05", name := "dave", song := "Song",
        duration := some 0, completed := true } (by decide)

/-- Claim C1 (code bug): a line that is valid JSON with a non-empty `user`
and a `song` but no `timestamp` key passes the parse loop (whose
`except KeyError` can never fire, since it uses `entry.get`), and then
`entry["timestamp"]` in the insert loop — outside any `try` — raises
`KeyError` to the caller instead of logging and skipping the line: the
returned flag `true` models the escaped exception. -/
theorem import_raises_on_missing_timestamp :
    (populate_from_log ⟨[], [], [], 1⟩
      [LogLine.record { user := some "alice", timestamp := none, song := some "X",
                        duration := none }]).2 = true := by
  decide
